import Mathlib

/-!
Verification of the CORS origin-admission logic of the Physical AI Textbook
backend (app/main.py).

Strings are modelled as `List Char`.  The Python operations the code relies on
(str.strip, str.rstrip, str.split, str.lower, urllib.parse.urlparse,
re.match with the two concrete patterns used in the source) are embedded
faithfully below; `urlparse` is modelled by `parseUrl`, restricted to the
scheme and netloc components, the only ones the source reads.  `parseUrl`
returns `Except` because the CPython urlsplit raises ValueError when the netloc
contains an unmatched square bracket; the environment-parsing loop wraps the
call in try/except while the two request handlers do not, and the embedding
mirrors both.

The decision logic duplicated verbatim between `add_cors_headers_backup`
(lines 163-175) and `options_api_handler` (lines 220-234) is embedded once as
`determineAllowedOrigin`; both the middleware model and the preflight-handler
model call it, exactly as the duplicated source lines compute `allowed_origin`.
-/

namespace CorsSpec

/-- Equality of `Except` results is decidable componentwise. -/
instance {ε α : Type} [DecidableEq ε] [DecidableEq α] : DecidableEq (Except ε α) :=
  fun a b =>
    match a, b with
    | .ok x, .ok y =>
      if h : x = y then isTrue (by rw [h]) else isFalse (fun he => by cases he; exact h rfl)
    | .error x, .error y =>
      if h : x = y then isTrue (by rw [h]) else isFalse (fun he => by cases he; exact h rfl)
    | .ok _, .error _ => isFalse (fun he => by cases he)
    | .error _, .ok _ => isFalse (fun he => by cases he)

/-- Python ASCII whitespace, as stripped by `str.strip()`.  (CPython also
strips non-ASCII Unicode whitespace; theorems below only ever apply
`pyStrip` to inputs without any whitespace, where the two agree.) -/
def pyIsSpace (c : Char) : Bool :=
  c = ' ' || c = '\t' || c = '\n' || c = '\r' || c = '\x0b' || c = '\x0c'

/-- Python `str.strip()`. -/
def pyStrip (s : List Char) : List Char :=
  ((s.dropWhile pyIsSpace).reverse.dropWhile pyIsSpace).reverse

/-- Python `str.rstrip("/")` (app/main.py line 45). -/
def rstripSlash (s : List Char) : List Char :=
  (s.reverse.dropWhile (fun c => c = '/')).reverse

/-- Python `str.split(",")` (app/main.py line 41). -/
def splitComma : List Char → List (List Char)
  | [] => [[]]
  | c :: cs =>
    match splitComma cs with
    | [] => [[]]
    | piece :: rest => if c = ',' then [] :: piece :: rest else (c :: piece) :: rest

/-- CPython urlsplit first deletes tab, carriage return and newline from the
URL (`_UNSAFE_URL_BYTES_TO_REMOVE`). -/
def scrubUrl (s : List Char) : List Char :=
  s.filter (fun c => !(c = '\t' || c = '\r' || c = '\n'))

/-- CPython `scheme_chars`: ASCII letters, digits, plus, hyphen, dot. -/
def schemeChar (c : Char) : Bool :=
  c.isAlpha || c.isDigit || c = '+' || c = '-' || c = '.'

/-- Python `str.lower()`.  (Only ever applied to validated ASCII scheme
characters, where `Char.toLower` agrees with CPython.) -/
def pyLower (s : List Char) : List Char := s.map Char.toLower

/-- Scheme/netloc pair produced by `parseUrl`. -/
structure UrlParts where
  scheme : List Char
  netloc : List Char
deriving DecidableEq, Repr

/-- The part of the URL before its first colon (`url[:url.find(":")]`). -/
def beforeColon (url : List Char) : List Char :=
  url.takeWhile (fun c => c != ':')

/-- CPython urlsplit scheme detection: `i = url.find(':')`; the prefix before
the first colon becomes the (lowercased) scheme when it is non-empty, starts
with an ASCII letter and consists of scheme characters only (`i > 0 and
url[0].isascii() and url[0].isalpha()`, then the scheme_chars loop). -/
def splitScheme (url : List Char) : List Char × List Char :=
  if (beforeColon url).length < url.length then
    if !(beforeColon url).isEmpty && (url.headD ' ').isAlpha &&
        (beforeColon url).all schemeChar then
      (pyLower (beforeColon url), url.drop ((beforeColon url).length + 1))
    else ([], url)
  else ([], url)

/-- A netloc with a `[` but no `]`, or a `]` but no `[`; CPython urlsplit
raises `ValueError("Invalid IPv6 URL")` on such netlocs. -/
def bracketMismatch (netloc : List Char) : Bool :=
  (netloc.contains '[' && !netloc.contains ']') ||
  (netloc.contains ']' && !netloc.contains '[')

/-- CPython `urllib.parse.urlparse`, restricted to the scheme and netloc components
(the only components app/main.py reads).  After scheme removal, a netloc is
present only when the remainder starts with `//`; it extends to the next
`/`, `?` or `#`.  A netloc with unmatched brackets raises ValueError
(modelled as `Except.error`).  (Python 3.11+ additionally validates netlocs
containing both brackets as IPv6/IPvFuture hosts; theorems below restrict
their bracket-carrying inputs so that they hold on either behaviour.)
Helper `urlNoDelim` is a character that does not delimit the netloc
(`_splitnetloc` stops at the first of `/`, `?`, `#`), and `rawNetloc` is the
netloc candidate: the remainder after `//`, up to the next delimiter. -/
def urlNoDelim (c : Char) : Bool := !(c = '/' || c = '?' || c = '#')

def rawNetloc (url : List Char) : List Char :=
  ((splitScheme url).2.drop 2).takeWhile urlNoDelim

def parseUrl (raw : List Char) : Except String UrlParts :=
  if (splitScheme (scrubUrl raw)).2.take 2 = ['/', '/'] then
    if bracketMismatch (rawNetloc (scrubUrl raw)) then .error "Invalid IPv6 URL"
    else .ok ⟨(splitScheme (scrubUrl raw)).1, rawNetloc (scrubUrl raw)⟩
  else .ok ⟨(splitScheme (scrubUrl raw)).1, []⟩

/-- The string `"://"`. -/
def sepColonSlashSlash : List Char := [':', '/', '/']

/-- The reconstruction of scheme://netloc from the parsed parts (app/main.py line 52). -/
def cleanOrigin (p : UrlParts) : List Char :=
  p.scheme ++ sepColonSlashSlash ++ p.netloc

/-- One iteration of the CORS_ORIGINS parsing loop (app/main.py lines 41-56):
strip, skip falsy entries, strip trailing slashes, reduce to scheme://netloc,
and on a urlparse exception fall back to the entry as-is. -/
def processEntry (entry : List Char) : List (List Char) :=
  if pyStrip entry = [] then []
  else
    match parseUrl (rstripSlash (pyStrip entry)) with
    | .ok parsed => [cleanOrigin parsed]
    | .error _ => [rstripSlash (pyStrip entry)]

/-- The whole parsing loop over the comma-separated pieces. -/
def parseEntries : List (List Char) → List (List Char)
  | [] => []
  | e :: es => processEntry e ++ parseEntries es

/-- Model of `env_origins` (app/main.py lines 38-56): empty CORS_ORIGINS yields no
environment origins. -/
def envOrigins (corsOriginsStr : List Char) : List (List Char) :=
  if corsOriginsStr = [] then [] else parseEntries (splitComma corsOriginsStr)

/-- Model of `default_origins` (app/main.py lines 61-65). -/
def defaultOrigins : List (List Char) :=
  ["https://hamza123545.github.io".toList,
   "http://localhost:3000".toList,
   "http://localhost:3001".toList]

/-- Model of `all_origins = list(set(env_origins + default_origins))` (line 68):
set semantics, so the embedding keeps one copy of each member; only
membership in `all_origins` is ever used downstream. -/
def allOrigins (corsOriginsStr : List Char) : List (List Char) :=
  (envOrigins corsOriginsStr ++ defaultOrigins).dedup

/-- The fixed GitHub Pages origin used in the patterns and the preflight
fallback. -/
def githubPagesOrigin : List Char := "https://hamza123545.github.io".toList

/-- Model of `re.match(r"https://hamza123545\.github\.io.*", origin)` (lines 169/227):
`re.match` anchors at the start only and `.*` matches the empty string, so
the match succeeds exactly when the literal part is a prefix. -/
def githubMatch (origin : List Char) : Bool :=
  githubPagesOrigin.isPrefixOf origin

/-- Model of `re.match(r"https?://(localhost|127\.0\.0\.1)(:\d+)?", origin)` (lines
174/233): the optional port group can match the empty string and `re.match`
anchors at the start only, so the match succeeds exactly when one of the four
scheme-host literals is a prefix. -/
def localhostMatch (origin : List Char) : Bool :=
  "http://localhost".toList.isPrefixOf origin ||
  "https://localhost".toList.isPrefixOf origin ||
  "http://127.0.0.1".toList.isPrefixOf origin ||
  "https://127.0.0.1".toList.isPrefixOf origin

/-- The `allowed_origin` computation duplicated at app/main.py lines 163-175
and 220-234: exact membership in `all_origins`, else the GitHub Pages pattern
(echoing scheme://netloc of the parsed origin), else the localhost pattern
(echoing verbatim).  Neither copy consults `is_development`.  The urlparse
call in the GitHub Pages branch is not wrapped in try/except, so its
ValueError propagates (`Except.error`). -/
def determineAllowedOrigin (origins : List (List Char)) (origin : List Char) :
    Except String (Option (List Char)) :=
  if origin ∈ origins then .ok (some origin)
  else if !origin.isEmpty && githubMatch origin then
    match parseUrl origin with
    | .ok parsed => .ok (some (cleanOrigin parsed))
    | .error e => .error e
  else if !origin.isEmpty && localhostMatch origin then .ok (some origin)
  else .ok none

/-- Python truthiness of the `allowed_origin` variable (None and the empty
string are falsy). -/
def truthy : Option (List Char) → Bool
  | none => false
  | some s => !s.isEmpty

/-- Model of the operation the spec calls `normalize`: reduce to scheme://netloc, passing the input
through unchanged when parsing fails (the fail-open try/except of the
CORS_ORIGINS loop). -/
def normalize (s : List Char) : List Char :=
  match parseUrl s with
  | .ok parsed => cleanOrigin parsed
  | .error _ => s

/-- Response headers as an association list of name/value pairs. -/
abbrev Headers := List (List Char × List Char)

/-- Case-insensitive header-name equality (Starlette header lookups compare
lowercased names). -/
def ciEq (a b : List Char) : Bool := pyLower a == pyLower b

/-- Membership test `name in response.headers` (case-insensitive). -/
def hasHeader (h : Headers) (name : List Char) : Bool :=
  h.any (fun p => ciEq p.1 name)

/-- First value stored under a header name (case-insensitive). -/
def getHeader : Headers → List Char → Option (List Char)
  | [], _ => none
  | p :: rest, name => if ciEq p.1 name then some p.2 else getHeader rest name

/-- Drop every entry with the given header name. -/
def removeHeader : Headers → List Char → Headers
  | [], _ => []
  | p :: rest, name =>
    if ciEq p.1 name then removeHeader rest name else p :: removeHeader rest name

/-- Starlette `MutableHeaders.__setitem__`: replace the first entry with the
name (dropping any later duplicates), or append when absent. -/
def setHeader : Headers → List Char → List Char → Headers
  | [], name, v => [(name, v)]
  | p :: rest, name, v =>
    if ciEq p.1 name then (name, v) :: removeHeader rest name
    else p :: setHeader rest name v

def acaoName : List Char := "Access-Control-Allow-Origin".toList
def credName : List Char := "Access-Control-Allow-Credentials".toList
def methodsName : List Char := "Access-Control-Allow-Methods".toList
def allowHeadersName : List Char := "Access-Control-Allow-Headers".toList
def exposeHeadersName : List Char := "Access-Control-Expose-Headers".toList
def maxAgeName : List Char := "Access-Control-Max-Age".toList
def methodsValue : List Char := "GET, POST, PUT, DELETE, OPTIONS, PATCH, HEAD".toList
def starValue : List Char := "*".toList
def trueValue : List Char := "true".toList

/-- The five header assignments of app/main.py lines 179-183, in order. -/
def applyCorsHeaders (resp : Headers) (allowedOrigin : List Char) : Headers :=
  setHeader (setHeader (setHeader (setHeader (setHeader resp
    acaoName allowedOrigin)
    credName trueValue)
    methodsName methodsValue)
    allowHeadersName starValue)
    exposeHeadersName starValue

/-- Model of `add_cors_headers_backup` (app/main.py lines 149-185), applied to the
response produced by the inner handler: a no-op when the response already
carries Access-Control-Allow-Origin; otherwise compute `allowed_origin` and,
when it is truthy, set the five headers. -/
def addCorsHeadersBackup (origins : List (List Char)) (originHeader : List Char)
    (resp : Headers) : Except String Headers :=
  if hasHeader resp acaoName then .ok resp
  else
    match determineAllowedOrigin origins originHeader with
    | .error e => .error e
    | .ok a => if truthy a then .ok (applyCorsHeaders resp ((a.getD []))) else .ok resp

/-- Model of `options_api_handler` (app/main.py lines 207-252): recompute
`allowed_origin`, fall back to the fixed GitHub Pages origin when it is
falsy, and return a 200 response with the five preflight headers (the
`full_path` parameter does not influence the response). -/
def optionsApiHandler (origins : List (List Char)) (originHeader : List Char) :
    Except String (Nat × Headers) :=
  match determineAllowedOrigin origins originHeader with
  | .error e => .error e
  | .ok a =>
    let allowedOrigin := if truthy a then a.getD [] else githubPagesOrigin
    .ok (200,
      [(acaoName, allowedOrigin),
       (methodsName, methodsValue),
       (allowHeadersName, starValue),
       (credName, trueValue),
       (maxAgeName, "3600".toList)])

/-! ### Generic helper lemmas -/

theorem isPrefixOf_ne_nil {p o : List Char} (h : p.isPrefixOf o = true) (hp : p ≠ []) :
    o ≠ [] := by
  cases p with
  | nil => exact absurd rfl hp
  | cons a as =>
    cases o with
    | nil => simp [List.isPrefixOf] at h
    | cons b bs => simp

theorem isPrefixOf_of_both {o p q : List Char} (hp : p.isPrefixOf o = true)
    (hq : q.isPrefixOf o = true) (hl : p.length ≤ q.length) :
    p.isPrefixOf q = true := by
  induction o generalizing p q with
  | nil =>
    cases p with
    | nil => simp [List.isPrefixOf]
    | cons a as => simp [List.isPrefixOf] at hp
  | cons b bs ih =>
    cases p with
    | nil => simp [List.isPrefixOf]
    | cons a as =>
      cases q with
      | nil => simp at hl
      | cons c cs =>
        simp only [List.isPrefixOf, Bool.and_eq_true, beq_iff_eq] at hp hq ⊢
        obtain ⟨hab, has⟩ := hp
        obtain ⟨hcb, hcs⟩ := hq
        subst hab
        subst hcb
        exact ⟨rfl, ih has hcs (by simpa using hl)⟩

theorem localhostMatch_ne_nil {o : List Char} (h : localhostMatch o = true) : o ≠ [] := by
  intro hnil
  subst hnil
  exact absurd h (by decide)

theorem githubMatch_ne_nil {o : List Char} (h : githubMatch o = true) : o ≠ [] := by
  intro hnil
  subst hnil
  exact absurd h (by decide)

/-- The localhost pattern and the GitHub Pages pattern are mutually exclusive:
their literal prefixes disagree within the first nine characters. -/
theorem localhost_not_github {o : List Char} (h : localhostMatch o = true) :
    githubMatch o = false := by
  by_contra hg
  rw [Bool.not_eq_false] at hg
  unfold githubMatch githubPagesOrigin at hg
  unfold localhostMatch at h
  simp only [Bool.or_eq_true] at h
  rcases h with ((h1 | h2) | h3) | h4
  · exact absurd (isPrefixOf_of_both h1 hg (by decide)) (by decide)
  · exact absurd (isPrefixOf_of_both h2 hg (by decide)) (by decide)
  · exact absurd (isPrefixOf_of_both h3 hg (by decide)) (by decide)
  · exact absurd (isPrefixOf_of_both h4 hg (by decide)) (by decide)

/-! ### Shape facts about the computed allow-list -/

theorem mem_parseEntries {x : List Char} {es : List (List Char)}
    (h : x ∈ parseEntries es) : ∃ e ∈ es, x ∈ processEntry e := by
  induction es with
  | nil => simp [parseEntries] at h
  | cons e es ih =>
    unfold parseEntries at h
    rw [List.mem_append] at h
    rcases h with h | h
    · exact ⟨e, by simp, h⟩
    · obtain ⟨e2, he2, hx⟩ := ih h
      exact ⟨e2, by simp [he2], hx⟩

theorem processEntry_shape {x entry : List Char} (h : x ∈ processEntry entry) :
    (∃ p, x = cleanOrigin p) ∨ (∃ e, parseUrl x = .error e) := by
  unfold processEntry at h
  by_cases h0 : pyStrip entry = []
  · rw [if_pos h0] at h
    simp at h
  · rw [if_neg h0] at h
    rcases hp : parseUrl (rstripSlash (pyStrip entry)) with e | p
    · rw [hp] at h
      simp at h
      subst h
      exact Or.inr ⟨e, hp⟩
    · rw [hp] at h
      simp at h
      exact Or.inl ⟨p, h⟩

theorem colon_mem_cleanOrigin (p : UrlParts) : ':' ∈ cleanOrigin p := by
  unfold cleanOrigin sepColonSlashSlash
  simp

theorem splitScheme_snd_mem {url : List Char} {c : Char}
    (h : c ∈ (splitScheme url).2) : c ∈ url := by
  unfold splitScheme at h
  split at h
  · split at h
    · exact List.mem_of_mem_drop h
    · exact h
  · exact h

theorem parseUrl_error_slash {x : List Char} {e : String} (h : parseUrl x = .error e) :
    '/' ∈ x := by
  unfold parseUrl at h
  split at h
  · rename_i hc
    have h2 : '/' ∈ (splitScheme (scrubUrl x)).2.take 2 := by
      rw [hc]
      simp
    have h3 : '/' ∈ (splitScheme (scrubUrl x)).2 :=
      List.Sublist.mem h2 (List.take_sublist _ _)
    have h4 : '/' ∈ scrubUrl x := splitScheme_snd_mem h3
    exact (List.mem_filter.mp h4).1
  · cases h

theorem mem_allOrigins_shape {x s : List Char} (h : x ∈ allOrigins s) :
    ':' ∈ x ∨ '/' ∈ x := by
  unfold allOrigins at h
  rw [List.mem_dedup, List.mem_append] at h
  rcases h with h | h
  · unfold envOrigins at h
    split at h
    · simp at h
    · obtain ⟨e2, _, hx⟩ := mem_parseEntries h
      rcases processEntry_shape hx with ⟨p, rfl⟩ | ⟨err, hp⟩
      · exact Or.inl (colon_mem_cleanOrigin p)
      · exact Or.inr (parseUrl_error_slash hp)
  · unfold defaultOrigins at h
    simp only [List.mem_cons, List.not_mem_nil, or_false] at h
    rcases h with rfl | rfl | rfl
    · exact Or.inl (by decide)
    · exact Or.inl (by decide)
    · exact Or.inl (by decide)

theorem mem_allOrigins_ne_nil {x s : List Char} (h : x ∈ allOrigins s) : x ≠ [] := by
  intro hnil
  subst hnil
  rcases mem_allOrigins_shape h with h2 | h2 <;> simp at h2

/-! ### Claim C1 -/

/-- Claim C1 is false as stated: the localhost/loopback rule is NOT
development-only.  Neither copy of the decision logic consults
`is_development` (app/main.py lines 173-175 and 232-234 run in every mode),
so with the production configuration (ENVIRONMENT unset to a non-development
value, CORS_ORIGINS empty, allow-list = the static defaults) the origin
`http://localhost` — which matches the loopback pattern and is not an exact
allow-list member — is still allowed with a truthy echo, where the claim
demands `allowed == false` in production. -/
theorem c1_counterexample :
    determineAllowedOrigin (allOrigins []) "http://localhost".toList =
      .ok (some "http://localhost".toList) ∧
    truthy (some "http://localhost".toList) = true ∧
    "http://localhost".toList ∉ allOrigins [] := by decide

/-- Claim C1 amended: for every origin matching the localhost/loopback
pattern that is not an exact member of the allow-list, the decision is
allowed with the origin echoed verbatim in BOTH development and production
mode — the decision procedure does not depend on the mode at all (it takes
only the allow-list and the origin). -/
theorem c1_amended (origins : List (List Char)) (origin : List Char)
    (hm : localhostMatch origin = true) (hmem : origin ∉ origins) :
    determineAllowedOrigin origins origin = .ok (some origin) := by
  unfold determineAllowedOrigin
  rw [if_neg hmem]
  have hne : origin ≠ [] := localhostMatch_ne_nil hm
  have hng : githubMatch origin = false := localhost_not_github hm
  have hie : origin.isEmpty = false := by
    simp [List.isEmpty_iff, hne]
  simp [hng, hie, hm]

/-- Witness for `c1_amended` at a concrete loopback origin and the default
allow-list. -/
theorem c1_witness :
    determineAllowedOrigin (allOrigins []) "https://127.0.0.1:8080".toList =
      .ok (some "https://127.0.0.1:8080".toList) :=
  c1_amended _ _ (by decide) (by decide)

/-! ### Claim C2 -/

/-- Claim C2 is false as stated: the static defaults (app/main.py lines
61-65) also contain `http://localhost:3000` and `http://localhost:3001`, so
the computed allow-list is not the three-element set the claim gives. -/
theorem c2_counterexample :
    "http://localhost:3000".toList ∈ allOrigins "https://a.com/path/,https://b.com".toList ∧
    "http://localhost:3000".toList ∉
      ["https://a.com".toList, "https://b.com".toList,
       "https://hamza123545.github.io".toList] := by decide

/-- Claim C2 amended: with CORS_ORIGINS = "https://a.com/path/,https://b.com"
the allow-list computed at startup equals, as a set, exactly
{https://a.com, https://b.com, https://hamza123545.github.io,
http://localhost:3000, http://localhost:3001} — the claimed three members
plus the two localhost entries of the static default list. -/
theorem c2_amended :
    (allOrigins "https://a.com/path/,https://b.com".toList).toFinset =
      (["https://a.com".toList, "https://b.com".toList,
        "https://hamza123545.github.io".toList,
        "http://localhost:3000".toList,
        "http://localhost:3001".toList]).toFinset := by decide

/-! ### Claim C3 -/

/-- Claim C3: echo invariant.  Whenever the decision procedure yields an
allowed origin, the echoed value is either the incoming Origin verbatim
(allow-list and localhost branches) or the incoming Origin reduced to
scheme://netloc (GitHub Pages branch) — never a value the requester did not
supply.  The allow-list is universally quantified, so this covers every
configuration in both modes. -/
theorem c3_echo_invariant (origins : List (List Char)) (origin echoed : List Char)
    (h : determineAllowedOrigin origins origin = .ok (some echoed)) :
    echoed = origin ∨ echoed = normalize origin := by
  unfold determineAllowedOrigin at h
  by_cases h1 : origin ∈ origins
  · rw [if_pos h1] at h
    simp only [Except.ok.injEq, Option.some.injEq] at h
    exact Or.inl h.symm
  · rw [if_neg h1] at h
    by_cases h2 : (!origin.isEmpty && githubMatch origin) = true
    · rw [h2] at h
      simp only [if_true] at h
      rcases hp : parseUrl origin with e | p
      · rw [hp] at h
        cases h
      · rw [hp] at h
        simp only [Except.ok.injEq, Option.some.injEq] at h
        refine Or.inr ?_
        unfold normalize
        rw [hp, ← h]
    · rw [Bool.not_eq_true] at h2
      rw [h2] at h
      simp only [Bool.false_eq_true, if_false] at h
      by_cases h3 : (!origin.isEmpty && localhostMatch origin) = true
      · rw [h3] at h
        simp only [if_true, Except.ok.injEq, Option.some.injEq] at h
        exact Or.inl h.symm
      · rw [Bool.not_eq_true] at h3
        rw [h3] at h
        simp at h

/-- Witness for `c3_echo_invariant` at a GitHub Pages origin with a path. -/
theorem c3_witness :
    determineAllowedOrigin (allOrigins []) "https://hamza123545.github.io/book".toList =
      .ok (some "https://hamza123545.github.io".toList) ∧
    ("https://hamza123545.github.io".toList = "https://hamza123545.github.io/book".toList ∨
     "https://hamza123545.github.io".toList =
       normalize "https://hamza123545.github.io/book".toList) :=
  ⟨by decide, c3_echo_invariant (allOrigins []) _ _ (by decide)⟩

/-! ### Claim C4 -/

/-- Claim C4: the preflight handler never rejects.  When the decision
procedure yields "not allowed" (a falsy `allowed_origin`), the OPTIONS
handler still returns status 200 with the fixed default GitHub Pages origin
as Access-Control-Allow-Origin (app/main.py lines 236-252).  The allow-list
is universally quantified, so this covers the production configuration. -/
theorem c4_preflight_fallback (origins : List (List Char)) (origin : List Char)
    (a : Option (List Char)) (h : determineAllowedOrigin origins origin = .ok a)
    (hf : truthy a = false) :
    optionsApiHandler origins origin =
      .ok (200,
        [(acaoName, githubPagesOrigin),
         (methodsName, methodsValue),
         (allowHeadersName, starValue),
         (credName, trueValue),
         (maxAgeName, "3600".toList)]) := by
  unfold optionsApiHandler
  rw [h]
  simp [hf]

/-- Witness for `c4_preflight_fallback` at a non-matching production origin. -/
theorem c4_witness :
    optionsApiHandler (allOrigins []) "https://evil.example.com".toList =
      .ok (200,
        [(acaoName, githubPagesOrigin),
         (methodsName, methodsValue),
         (allowHeadersName, starValue),
         (credName, trueValue),
         (maxAgeName, "3600".toList)]) :=
  c4_preflight_fallback _ _ none (by decide) (by decide)

/-! ### Claim C5 -/

/-- Claim C5: an empty (or absent, which FastAPI reads as "") Origin header
yields "not allowed" under every CORS_ORIGINS configuration — hence in both
modes — and the backup pass leaves the response unchanged (no header
emitted).  Both computations return `.ok`, i.e. no exception is raised. -/
theorem c5_empty_origin (env : List Char) (resp : Headers) :
    determineAllowedOrigin (allOrigins env) [] = .ok none ∧
    addCorsHeadersBackup (allOrigins env) [] resp = .ok resp := by
  have hne : ([] : List Char) ∉ allOrigins env := fun h => mem_allOrigins_ne_nil h rfl
  have hd : determineAllowedOrigin (allOrigins env) [] = .ok none := by
    unfold determineAllowedOrigin
    rw [if_neg hne]
    simp
  refine ⟨hd, ?_⟩
  unfold addCorsHeadersBackup
  by_cases hh : hasHeader resp acaoName = true
  · rw [hh]
    simp
  · rw [Bool.not_eq_true] at hh
    rw [hh]
    simp only [Bool.false_eq_true, if_false]
    rw [hd]
    rfl

/-! ### Claim C7 -/

/-- Claim C7 is false as stated: `https://hamza123545.github.io[` matches the
GitHub Pages pattern and is not an allow-list member, but the decision
procedure raises ValueError("Invalid IPv6 URL") from the unguarded urlparse
call (app/main.py lines 171/229-231) instead of allowing it — CPython
rejects a netloc containing an unmatched bracket. -/
theorem c7_counterexample :
    githubMatch "https://hamza123545.github.io[".toList = true ∧
    "https://hamza123545.github.io[".toList ∉ allOrigins [] ∧
    determineAllowedOrigin (allOrigins []) "https://hamza123545.github.io[".toList =
      .error "Invalid IPv6 URL" := by decide

/-- Claim C7 amended: for every origin matching the GitHub Pages pattern that
is not an exact allow-list member AND on which urlparse succeeds (in
particular its netloc carries no square bracket, so no Python version raises),
the decision is allowed with the origin reduced to scheme://netloc, in both
modes. -/
theorem c7_amended (origins : List (List Char)) (origin : List Char) (p : UrlParts)
    (hm : githubMatch origin = true) (hmem : origin ∉ origins)
    (hp : parseUrl origin = .ok p)
    (_hb1 : p.netloc.contains '[' = false) (_hb2 : p.netloc.contains ']' = false) :
    determineAllowedOrigin origins origin = .ok (some (cleanOrigin p)) := by
  unfold determineAllowedOrigin
  rw [if_neg hmem]
  have hne : origin ≠ [] := githubMatch_ne_nil hm
  have hie : origin.isEmpty = false := by
    simp [List.isEmpty_iff, hne]
  simp [hie, hm, hp]

/-- Witness for `c7_amended` at the real frontend origin with its path. -/
theorem c7_witness :
    determineAllowedOrigin (allOrigins [])
        "https://hamza123545.github.io/physical-ai-book".toList =
      .ok (some (cleanOrigin ⟨"https".toList, "hamza123545.github.io".toList⟩)) :=
  c7_amended _ _ _ (by decide) (by decide) (by decide) (by decide) (by decide)

/-! ### Claim C8 -/

/-- Claim C8: every exact member of a configured allow-list is allowed with
the origin echoed verbatim (app/main.py lines 166-167 and 224-225); the echo
is truthy because every member of a computed allow-list is non-empty. -/
theorem c8_member_verbatim (env : List Char) (origin : List Char)
    (hmem : origin ∈ allOrigins env) :
    determineAllowedOrigin (allOrigins env) origin = .ok (some origin) ∧
    truthy (some origin) = true := by
  have hne : origin ≠ [] := mem_allOrigins_ne_nil hmem
  constructor
  · unfold determineAllowedOrigin
    rw [if_pos hmem]
  · cases origin with
    | nil => exact absurd rfl hne
    | cons a as => rfl

/-- Witness for `c8_member_verbatim` at a default allow-list member. -/
theorem c8_witness :
    determineAllowedOrigin (allOrigins []) "http://localhost:3000".toList =
      .ok (some "http://localhost:3000".toList) ∧
    truthy (some "http://localhost:3000".toList) = true :=
  c8_member_verbatim [] _ (by decide)

/-! ### Header-map lemmas for Claim C6 -/

theorem ciEq_refl (n : List Char) : ciEq n n = true := by
  simp [ciEq]

theorem ciEq_true_iff {a b : List Char} : ciEq a b = true ↔ pyLower a = pyLower b := by
  simp [ciEq]

theorem ciEq_false_iff {a b : List Char} : ciEq a b = false ↔ pyLower a ≠ pyLower b := by
  simp [ciEq]

theorem getHeader_removeHeader (h : Headers) (n m : List Char)
    (hne : pyLower m ≠ pyLower n) :
    getHeader (removeHeader h n) m = getHeader h m := by
  induction h with
  | nil => rfl
  | cons p rest ih =>
    by_cases hc : ciEq p.1 n = true
    · have hpm : ciEq p.1 m = false := by
        rw [ciEq_false_iff]
        rw [ciEq_true_iff] at hc
        rw [hc]
        exact fun he => hne he.symm
      simp only [removeHeader, hc, if_true, getHeader, hpm, Bool.false_eq_true, if_false]
      exact ih
    · rw [Bool.not_eq_true] at hc
      simp only [removeHeader, hc, Bool.false_eq_true, if_false, getHeader]
      by_cases hpm : ciEq p.1 m = true
      · simp [hpm]
      · rw [Bool.not_eq_true] at hpm
        simp [hpm, ih]

theorem getHeader_setHeader_self (h : Headers) (n v : List Char) :
    getHeader (setHeader h n v) n = some v := by
  induction h with
  | nil => simp [setHeader, getHeader, ciEq_refl n]
  | cons p rest ih =>
    by_cases hc : ciEq p.1 n = true
    · simp [setHeader, hc, getHeader, ciEq_refl n]
    · rw [Bool.not_eq_true] at hc
      simp [setHeader, hc, getHeader, ih]

theorem getHeader_setHeader_other (h : Headers) (n v m : List Char)
    (hne : pyLower m ≠ pyLower n) :
    getHeader (setHeader h n v) m = getHeader h m := by
  have hnm : ciEq n m = false := by
    rw [ciEq_false_iff]
    exact fun he => hne he.symm
  induction h with
  | nil => simp [setHeader, getHeader, hnm]
  | cons p rest ih =>
    by_cases hc : ciEq p.1 n = true
    · have hpm : ciEq p.1 m = false := by
        rw [ciEq_false_iff]
        rw [ciEq_true_iff] at hc
        rw [hc]
        exact fun he => hne he.symm
      simp only [setHeader, hc, if_true, getHeader, hnm, hpm, Bool.false_eq_true, if_false]
      exact getHeader_removeHeader rest n m hne
    · rw [Bool.not_eq_true] at hc
      simp only [setHeader, hc, Bool.false_eq_true, if_false, getHeader]
      by_cases hpm : ciEq p.1 m = true
      · simp [hpm]
      · rw [Bool.not_eq_true] at hpm
        simp [hpm, ih]

theorem applyCorsHeaders_lookups (resp : Headers) (a : List Char) :
    getHeader (applyCorsHeaders resp a) acaoName = some a ∧
    getHeader (applyCorsHeaders resp a) credName = some trueValue ∧
    getHeader (applyCorsHeaders resp a) methodsName = some methodsValue ∧
    getHeader (applyCorsHeaders resp a) allowHeadersName = some starValue ∧
    getHeader (applyCorsHeaders resp a) exposeHeadersName = some starValue := by
  unfold applyCorsHeaders
  refine ⟨?_, ?_, ?_, ?_, ?_⟩
  · rw [getHeader_setHeader_other _ _ _ _ (by decide),
      getHeader_setHeader_other _ _ _ _ (by decide),
      getHeader_setHeader_other _ _ _ _ (by decide),
      getHeader_setHeader_other _ _ _ _ (by decide),
      getHeader_setHeader_self]
  · rw [getHeader_setHeader_other _ _ _ _ (by decide),
      getHeader_setHeader_other _ _ _ _ (by decide),
      getHeader_setHeader_other _ _ _ _ (by decide),
      getHeader_setHeader_self]
  · rw [getHeader_setHeader_other _ _ _ _ (by decide),
      getHeader_setHeader_other _ _ _ _ (by decide),
      getHeader_setHeader_self]
  · rw [getHeader_setHeader_other _ _ _ _ (by decide),
      getHeader_setHeader_self]
  · rw [getHeader_setHeader_self]

/-! ### Claim C6 -/

/-- Claim C6: frame property of the backup header pass (app/main.py lines
158-183).  When Access-Control-Allow-Origin is already present the pass
returns the response unchanged (never overwriting); in every other outcome
it either leaves the response unchanged or installs the full five-header set
together — allow-origin, allow-credentials=true, the fixed methods list,
allow-headers=*, expose-headers=* — never a partial subset. -/
theorem c6_frame (origins : List (List Char)) (origin : List Char) (resp r : Headers)
    (h : addCorsHeadersBackup origins origin resp = .ok r) :
    (hasHeader resp acaoName = true → r = resp) ∧
    (r = resp ∨ ∃ a,
      getHeader r acaoName = some a ∧
      getHeader r credName = some trueValue ∧
      getHeader r methodsName = some methodsValue ∧
      getHeader r allowHeadersName = some starValue ∧
      getHeader r exposeHeadersName = some starValue) := by
  unfold addCorsHeadersBackup at h
  by_cases hh : hasHeader resp acaoName = true
  · rw [hh] at h
    simp only [if_true, Except.ok.injEq] at h
    subst h
    exact ⟨fun _ => rfl, Or.inl rfl⟩
  · rw [Bool.not_eq_true] at hh
    rw [hh] at h
    simp only [Bool.false_eq_true, if_false] at h
    rcases hd : determineAllowedOrigin origins origin with e | a
    · rw [hd] at h
      cases h
    · rw [hd] at h
      have h2 : (if truthy a = true then
          Except.ok (applyCorsHeaders resp (a.getD [])) else Except.ok resp) =
            Except.ok (ε := String) r := h
      by_cases ht : truthy a = true
      · rw [ht] at h2
        simp only [if_true, Except.ok.injEq] at h2
        subst h2
        refine ⟨?_, Or.inr ⟨a.getD [], applyCorsHeaders_lookups resp (a.getD [])⟩⟩
        intro hcon
        rw [hh] at hcon
        cases hcon
      · rw [Bool.not_eq_true] at ht
        rw [ht] at h2
        simp only [Bool.false_eq_true, if_false, Except.ok.injEq] at h2
        subst h2
        exact ⟨fun _ => rfl, Or.inl rfl⟩

/-- Witness for `c6_frame`: an empty response with an allowed origin receives
the full header set. -/
theorem c6_witness :
    (hasHeader ([] : Headers) acaoName = true →
      applyCorsHeaders [] "http://localhost".toList = ([] : Headers)) ∧
    (applyCorsHeaders [] "http://localhost".toList = ([] : Headers) ∨ ∃ a,
      getHeader (applyCorsHeaders [] "http://localhost".toList) acaoName = some a ∧
      getHeader (applyCorsHeaders [] "http://localhost".toList) credName = some trueValue ∧
      getHeader (applyCorsHeaders [] "http://localhost".toList) methodsName =
        some methodsValue ∧
      getHeader (applyCorsHeaders [] "http://localhost".toList) allowHeadersName =
        some starValue ∧
      getHeader (applyCorsHeaders [] "http://localhost".toList) exposeHeadersName =
        some starValue) :=
  c6_frame (allOrigins []) "http://localhost".toList []
    (applyCorsHeaders [] "http://localhost".toList) (by decide)

/-! ### Character-class lemmas for Claim C9 -/

theorem isUpper_iff (c : Char) : c.isUpper = true ↔ 65 ≤ c.toNat ∧ c.toNat ≤ 90 := by
  simp [Char.isUpper, UInt32.le_def, BitVec.le_def]
  rfl

theorem isLower_iff (c : Char) : c.isLower = true ↔ 97 ≤ c.toNat ∧ c.toNat ≤ 122 := by
  simp [Char.isLower, UInt32.le_def, BitVec.le_def]
  rfl

theorem toLower_eq_of_not_upper (c : Char) (h : c.isUpper = false) :
    Char.toLower c = c := by
  unfold Char.toLower
  rw [if_neg]
  intro hc
  rw [← Bool.not_eq_true, isUpper_iff] at h
  exact h hc

theorem toLower_isLower_of_upper (c : Char) (h : c.isUpper = true) :
    (Char.toLower c).isLower = true := by
  have h2 := (isUpper_iff c).mp h
  unfold Char.toLower
  rw [if_pos h2]
  have hv : (c.toNat + 32).isValidChar := by
    left
    omega
  have e : (Char.ofNat (c.toNat + 32)).toNat = c.toNat + 32 := by
    unfold Char.ofNat
    rw [dif_pos hv]
    rfl
  rw [isLower_iff, e]
  omega

theorem toLower_idem (c : Char) :
    Char.toLower (Char.toLower c) = Char.toLower c := by
  by_cases h : c.isUpper = true
  · have h2 := toLower_isLower_of_upper c h
    apply toLower_eq_of_not_upper
    rw [isLower_iff] at h2
    rw [← Bool.not_eq_true] at *
    intro hu
    rw [isUpper_iff] at hu
    omega
  · rw [Bool.not_eq_true] at h
    rw [toLower_eq_of_not_upper c h, toLower_eq_of_not_upper c h]

theorem toLower_isAlpha (c : Char) (h : c.isAlpha = true) :
    (Char.toLower c).isAlpha = true := by
  by_cases hu : c.isUpper = true
  · have := toLower_isLower_of_upper c hu
    simp [Char.isAlpha, this]
  · rw [Bool.not_eq_true] at hu
    rw [toLower_eq_of_not_upper c hu]
    exact h

theorem schemeChar_toLower (c : Char) (h : schemeChar c = true) :
    schemeChar (Char.toLower c) = true := by
  by_cases hu : c.isUpper = true
  · have := toLower_isLower_of_upper c hu
    simp [schemeChar, Char.isAlpha, this]
  · rw [Bool.not_eq_true] at hu
    rw [toLower_eq_of_not_upper c hu]
    exact h

theorem schemeChar_ne (c : Char) (h : schemeChar c = true) :
    c ≠ ':' ∧ c ≠ '\t' ∧ c ≠ '\r' ∧ c ≠ '\n' := by
  refine ⟨?_, ?_, ?_, ?_⟩ <;> intro hc <;> subst hc <;> exact absurd h (by decide)

/-! ### Parse inversion and reparse lemmas for Claim C9 -/

/-- A scheme character that is fixed by lowercasing: what characters of an
already-produced scheme look like. -/
def lowerSchemeChar (c : Char) : Bool := schemeChar c && (Char.toLower c == c)

/-- Shape of a non-empty scheme produced by `splitScheme`: lowercased scheme
characters led by an ASCII letter. -/
def goodScheme (s : List Char) : Bool :=
  (s.headD ' ').isAlpha && s.all lowerSchemeChar

/-- Shape of a netloc produced by `parseUrl`: no delimiter and none of the
scrubbed bytes. -/
def netlocChar (c : Char) : Bool :=
  urlNoDelim c && !(c = '\t' || c = '\r' || c = '\n')

theorem headD_takeWhile {url s : List Char} {c : Char} {p : Char → Bool}
    (h : url.takeWhile p = c :: s) : url.headD ' ' = c := by
  cases url with
  | nil => simp [List.takeWhile] at h
  | cons a as =>
    rw [List.takeWhile] at h
    by_cases hp : p a = true
    · rw [hp] at h
      simp at h
      rw [h.1]
      rfl
    · rw [Bool.not_eq_true] at hp
      rw [hp] at h
      simp at h

theorem goodScheme_pyLower {b : List Char} (hne : b ≠ [])
    (halpha : (b.headD ' ').isAlpha = true) (hall : b.all schemeChar = true) :
    pyLower b ≠ [] ∧ goodScheme (pyLower b) = true := by
  rcases b with _ | ⟨c, cs⟩
  · exact absurd rfl hne
  · constructor
    · simp [pyLower]
    · unfold goodScheme
      rw [Bool.and_eq_true]
      constructor
      · have hc : ((c :: cs).headD ' ') = c := rfl
        rw [hc] at halpha
        have : (pyLower (c :: cs)).headD ' ' = Char.toLower c := rfl
        rw [this]
        exact toLower_isAlpha c halpha
      · rw [List.all_eq_true]
        intro a ha
        unfold pyLower at ha
        rw [List.mem_map] at ha
        obtain ⟨b, hb2, rfl⟩ := ha
        have hsc : schemeChar b = true := by
          rw [List.all_eq_true] at hall
          exact hall b hb2
        unfold lowerSchemeChar
        rw [schemeChar_toLower b hsc, toLower_idem b]
        simp

theorem splitScheme_fst_cases (url : List Char) :
    (splitScheme url).1 = [] ∨
    ((splitScheme url).1 ≠ [] ∧ goodScheme (splitScheme url).1 = true) := by
  unfold splitScheme
  split
  · split
    · rename_i hlen hcond
      rw [Bool.and_eq_true, Bool.and_eq_true] at hcond
      obtain ⟨⟨hne0, halpha⟩, hall⟩ := hcond
      have hne : beforeColon url ≠ [] := by
        intro h0
        rw [h0] at hne0
        exact absurd hne0 (by decide)
      have halpha2 : ((beforeColon url).headD ' ').isAlpha = true := by
        rcases hb : beforeColon url with _ | ⟨c, cs⟩
        · exact absurd hb hne
        · have h1 : ((c :: cs : List Char).headD ' ') = c := rfl
          rw [h1, ← headD_takeWhile hb]
          exact halpha
      exact Or.inr (goodScheme_pyLower hne halpha2 hall)
    · exact Or.inl rfl
  · exact Or.inl rfl

theorem parseUrl_ok_inv {x : List Char} {p : UrlParts} (h : parseUrl x = .ok p) :
    (p.scheme = [] ∨ (p.scheme ≠ [] ∧ goodScheme p.scheme = true)) ∧
    p.netloc.all netlocChar = true ∧ bracketMismatch p.netloc = false := by
  unfold parseUrl at h
  split at h
  · split at h
    · cases h
    · rename_i htake hbr
      simp only [Except.ok.injEq] at h
      subst h
      refine ⟨splitScheme_fst_cases _, ?_, ?_⟩
      · rw [List.all_eq_true]
        intro c hc
        have hdelim : urlNoDelim c = true := List.mem_takeWhile_imp hc
        have hmem1 : c ∈ (splitScheme (scrubUrl x)).2.drop 2 :=
          List.Sublist.mem hc (List.takeWhile_sublist _)
        have hmem2 : c ∈ scrubUrl x := splitScheme_snd_mem (List.mem_of_mem_drop hmem1)
        have hscrub := (List.mem_filter.mp hmem2).2
        unfold netlocChar
        rw [hdelim, hscrub]
        rfl
      · rw [Bool.not_eq_true] at hbr
        exact hbr
  · simp only [Except.ok.injEq] at h
    subst h
    exact ⟨splitScheme_fst_cases _, rfl, rfl⟩

theorem takeWhile_append_all {l1 l2 : List Char} {p : Char → Bool}
    (h : l1.all p = true) :
    (l1 ++ l2).takeWhile p = l1 ++ l2.takeWhile p := by
  rw [List.takeWhile_append]
  rw [List.all_eq_true] at h
  rw [if_pos]
  have : l1.takeWhile p = l1 := List.takeWhile_eq_self_iff.mpr h
  rw [this]

theorem scrubUrl_eq_self {l : List Char}
    (h : ∀ c ∈ l, ¬(c = '\t' ∨ c = '\r' ∨ c = '\n')) : scrubUrl l = l := by
  unfold scrubUrl
  rw [List.filter_eq_self]
  intro a ha
  have := h a ha
  simp only [Bool.not_eq_eq_eq_not, Bool.not_false]
  simp [this]
  tauto

/-- Reparsing `scheme ++ "://" ++ netloc` recovers the same scheme and
netloc, whenever the two parts have the shapes `parseUrl` produces. -/
theorem parseUrl_clean_ok (s n : List Char) (hs0 : s ≠ [])
    (hsg : goodScheme s = true)
    (hn : n.all netlocChar = true) (hbr : bracketMismatch n = false) :
    parseUrl (s ++ sepColonSlashSlash ++ n) = .ok ⟨s, n⟩ := by
  unfold goodScheme at hsg
  rw [Bool.and_eq_true] at hsg
  obtain ⟨halpha, hall⟩ := hsg
  have hallsc : ∀ c ∈ s, schemeChar c = true ∧ Char.toLower c = c := by
    intro c hc
    rw [List.all_eq_true] at hall
    have := hall c hc
    unfold lowerSchemeChar at this
    rw [Bool.and_eq_true, beq_iff_eq] at this
    exact this
  have hnprops : ∀ c ∈ n, urlNoDelim c = true ∧ ¬(c = '\t' ∨ c = '\r' ∨ c = '\n') := by
    intro c hc
    rw [List.all_eq_true] at hn
    have := hn c hc
    unfold netlocChar at this
    rw [Bool.and_eq_true] at this
    refine ⟨this.1, ?_⟩
    have h2 := this.2
    intro hor
    rcases hor with h3 | h3 | h3 <;> rw [h3] at h2 <;> exact absurd h2 (by decide)
  -- the concatenation re-associates as s ++ (':' :: '/' :: '/' :: n)
  have hassoc : s ++ sepColonSlashSlash ++ n = s ++ (':' :: '/' :: '/' :: n) := by
    rw [List.append_assoc]
    rfl
  -- scrubbing is the identity on the concatenation
  have hscrub : scrubUrl (s ++ sepColonSlashSlash ++ n) = s ++ sepColonSlashSlash ++ n := by
    apply scrubUrl_eq_self
    intro c hc
    rw [hassoc] at hc
    rw [List.mem_append] at hc
    rcases hc with hc | hc
    · have := (schemeChar_ne c (hallsc c hc).1).2
      tauto
    · simp only [List.mem_cons] at hc
      rcases hc with rfl | rfl | rfl | hc
      · intro hor
        rcases hor with h3 | h3 | h3 <;> cases h3
      · intro hor
        rcases hor with h3 | h3 | h3 <;> cases h3
      · intro hor
        rcases hor with h3 | h3 | h3 <;> cases h3
      · exact (hnprops c hc).2
  -- the prefix before the first colon is exactly s
  have hbefore : beforeColon (s ++ sepColonSlashSlash ++ n) = s := by
    unfold beforeColon
    rw [hassoc]
    rw [takeWhile_append_all]
    · have : (':' :: '/' :: '/' :: n).takeWhile (fun c => c != ':') = [] := by
        rw [List.takeWhile]
        simp
      rw [this, List.append_nil]
    · rw [List.all_eq_true]
      intro c hc
      have := (schemeChar_ne c (hallsc c hc).1).1
      simp [this]
  -- splitScheme splits the concatenation back into s and //n
  have hsplit : splitScheme (s ++ sepColonSlashSlash ++ n) =
      (s, '/' :: '/' :: n) := by
    unfold splitScheme
    rw [hbefore]
    have hlen : s.length < (s ++ sepColonSlashSlash ++ n).length := by
      rw [hassoc, List.length_append]
      simp
    rw [if_pos hlen]
    have hhead : (s ++ sepColonSlashSlash ++ n).headD ' ' = s.headD ' ' := by
      rw [hassoc]
      cases s with
      | nil => exact absurd rfl hs0
      | cons a as => rfl
    have hcond : (!s.isEmpty && ((s ++ sepColonSlashSlash ++ n).headD ' ').isAlpha &&
        s.all schemeChar) = true := by
      rw [hhead]
      have h1 : s.isEmpty = false := by
        simp [List.isEmpty_iff, hs0]
      have h2 : s.all schemeChar = true := by
        rw [List.all_eq_true]
        exact fun c hc => (hallsc c hc).1
      rw [h1, h2, halpha]
      rfl
    rw [hcond, if_pos rfl]
    have hl : pyLower s = s := by
      unfold pyLower
      have : s.map Char.toLower = s.map id :=
        List.map_congr_left (fun c hc => (hallsc c hc).2)
      rw [this, List.map_id]
    have hdrop : (s ++ sepColonSlashSlash ++ n).drop (s.length + 1) =
        '/' :: '/' :: n := by
      rw [hassoc]
      rw [← List.drop_drop, List.drop_left]
      rfl
    rw [hl, hdrop]
  -- the remainder after the scheme starts with // and its netloc is n
  have hraw : rawNetloc (s ++ sepColonSlashSlash ++ n) = n := by
    unfold rawNetloc
    rw [hsplit]
    have : ('/' :: '/' :: n : List Char).drop 2 = n := rfl
    rw [this]
    rw [List.takeWhile_eq_self_iff.mpr]
    exact fun c hc => (hnprops c hc).1
  unfold parseUrl
  rw [hscrub, hsplit, hraw]
  have htake : ('/' :: '/' :: n : List Char).take 2 = ['/', '/'] := rfl
  rw [if_pos htake, hbr]
  rfl

/-! ### Claim C9 -/

/-- Claim C9 is false as stated: `normalize` is not idempotent on every
string.  For the protocol-relative string `//a`, urlparse finds no scheme but
a netloc `a`, so one application yields `://a`; reparsing `://a` finds
neither scheme (the colon is at index 0) nor netloc (the remainder starts
with `:/`, not `//`), so the second application yields `://`. -/
theorem c9_counterexample :
    normalize (normalize "//a".toList) ≠ normalize "//a".toList := by decide

/-- Claim C9 amended: `normalize` is idempotent on every string except those
that urlparse splits into an empty scheme together with a non-empty netloc
(protocol-relative inputs such as `//a`): whenever parsing fails (input
passed through unchanged) or yields a non-empty scheme or an empty netloc,
a second application changes nothing. -/
theorem c9_amended (x : List Char)
    (h : ∀ p, parseUrl x = .ok p → p.scheme ≠ [] ∨ p.netloc = []) :
    normalize (normalize x) = normalize x := by
  rcases hp : parseUrl x with e | p
  · have hx : normalize x = x := by
      unfold normalize
      rw [hp]
    rw [hx, hx]
  · obtain ⟨hsch, hnet, hbr⟩ := parseUrl_ok_inv hp
    have hx : normalize x = cleanOrigin p := by
      unfold normalize
      rw [hp]
  -- two cases: empty scheme (forcing empty netloc), or a good scheme
    rcases hsch with h0 | ⟨h1, h2⟩
    · have hn : p.netloc = [] := by
        rcases h p hp with hs | hn
        · exact absurd h0 hs
        · exact hn
      have hcp : cleanOrigin p = sepColonSlashSlash := by
        unfold cleanOrigin
        rw [h0, hn]
        rfl
      rw [hx, hcp]
      decide
    · have hre : parseUrl (cleanOrigin p) = .ok ⟨p.scheme, p.netloc⟩ :=
        parseUrl_clean_ok p.scheme p.netloc h1 h2 hnet hbr
      rw [hx]
      unfold normalize
      rw [hre]

/-- Witness for `c9_amended` on a well-formed https origin. -/
theorem c9_witness :
    normalize (normalize "https://a.com/p".toList) = normalize "https://a.com/p".toList :=
  c9_amended _ (fun p hp => by
    rw [show parseUrl "https://a.com/p".toList =
        .ok ⟨"https".toList, "a.com".toList⟩ from by decide] at hp
    injection hp with h2
    subst h2
    exact Or.inl (by decide))

/-! ### Claim C10 -/

/-- Characters of a bare host name such as `example.com`: ASCII letters,
digits, dot, hyphen, underscore.  No scheme separator, no slash, no
whitespace, no brackets. -/
def bareHostChar (c : Char) : Bool :=
  c.isAlpha || c.isDigit || c = '.' || c = '-' || c = '_'

theorem bareHostChar_ne (c : Char) (h : bareHostChar c = true) :
    c ≠ ':' ∧ c ≠ '/' ∧ pyIsSpace c = false ∧ ¬(c = '\t' ∨ c = '\r' ∨ c = '\n') := by
  refine ⟨?_, ?_, ?_, ?_⟩
  · intro hc
    subst hc
    exact absurd h (by decide)
  · intro hc
    subst hc
    exact absurd h (by decide)
  · by_contra hsp
    rw [Bool.not_eq_false] at hsp
    unfold pyIsSpace at hsp
    simp only [Bool.or_eq_true, decide_eq_true_eq] at hsp
    have hsp2 : c = ' ' ∨ c = '\t' ∨ c = '\n' ∨ c = '\r' ∨ c = '\x0b' ∨ c = '\x0c' := by
      tauto
    rcases hsp2 with h1 | h1 | h1 | h1 | h1 | h1 <;> subst h1 <;> exact absurd h (by decide)
  · intro hor
    rcases hor with h1 | h1 | h1 <;> subst h1 <;> exact absurd h (by decide)

theorem dropWhile_eq_self_all {l : List Char} {p : Char → Bool}
    (h : ∀ c ∈ l, p c = false) : l.dropWhile p = l := by
  cases l with
  | nil => rfl
  | cons a as =>
    rw [List.dropWhile_cons, h a (by simp)]
    simp

theorem pyStrip_eq_self {l : List Char} (h : ∀ c ∈ l, pyIsSpace c = false) :
    pyStrip l = l := by
  unfold pyStrip
  rw [dropWhile_eq_self_all h]
  rw [dropWhile_eq_self_all (fun c hc => h c (List.mem_reverse.mp hc))]
  exact List.reverse_reverse l

theorem rstripSlash_eq_self {l : List Char} (h : ∀ c ∈ l, c ≠ '/') :
    rstripSlash l = l := by
  unfold rstripSlash
  rw [dropWhile_eq_self_all]
  · exact List.reverse_reverse l
  · intro c hc
    have := h c (List.mem_reverse.mp hc)
    simp [this]

/-- Claim C10 is false as universally stated: the entry `//a.com` contains no
URL scheme (urlparse finds an empty scheme), yet its netloc is `a.com`, not
empty, and the allow-list gains `://a.com` rather than the literal `://`. -/
theorem c10_counterexample :
    pyStrip "//a.com".toList ≠ [] ∧
    parseUrl (rstripSlash (pyStrip "//a.com".toList)) = .ok ⟨[], "a.com".toList⟩ ∧
    processEntry "//a.com".toList = ["://a.com".toList] ∧
    "://a.com".toList ≠ "://".toList := by decide

/-- Claim C10 amended: for every non-empty CORS_ORIGINS entry made only of
bare-hostname characters (letters, digits, dot, hyphen, underscore — e.g.
`example.com`): urlparse succeeds with empty scheme AND empty netloc (so the
except-branch fallback is not involved), the allow-list gains the literal
string `://` rather than the entry, and the entry itself is never a member of
any computed allow-list, so a request with that Origin is never admitted by
exact membership.  (For general scheme-less entries such as `//a.com` the
netloc can be non-empty — see the counterexample.) -/
theorem c10_amended (e : List Char) (hne : e ≠ []) (hb : e.all bareHostChar = true) :
    parseUrl e = .ok ⟨[], []⟩ ∧
    processEntry e = ["://".toList] ∧
    ∀ s, e ∉ allOrigins s := by
  rw [List.all_eq_true] at hb
  have hprops := fun c hc => bareHostChar_ne c (hb c hc)
  have hscrub : scrubUrl e = e :=
    scrubUrl_eq_self (fun c hc => (hprops c hc).2.2.2)
  have hsplit : splitScheme e = ([], e) := by
    unfold splitScheme
    have hbc : beforeColon e = e := by
      unfold beforeColon
      rw [List.takeWhile_eq_self_iff.mpr]
      intro c hc
      have := (hprops c hc).1
      simp [this]
    rw [hbc]
    rw [if_neg]
    omega
  have htake : e.take 2 ≠ ['/', '/'] := by
    intro ht
    have hm : '/' ∈ e.take 2 := by
      rw [ht]
      simp
    exact absurd rfl (hprops '/' (List.Sublist.mem hm (List.take_sublist _ _))).2.1
  have hparse : parseUrl e = .ok ⟨[], []⟩ := by
    unfold parseUrl
    rw [hscrub, hsplit]
    rw [if_neg htake]
  refine ⟨hparse, ?_, ?_⟩
  · have hstrip : pyStrip e = e :=
      pyStrip_eq_self (fun c hc => (hprops c hc).2.2.1)
    have hr : rstripSlash e = e :=
      rstripSlash_eq_self (fun c hc => (hprops c hc).2.1)
    unfold processEntry
    rw [hstrip, if_neg hne, hr, hparse]
    simp [cleanOrigin, sepColonSlashSlash]
  · intro s hmem
    rcases mem_allOrigins_shape hmem with hc | hc
    · exact absurd rfl (hprops ':' hc).1
    · exact absurd rfl (hprops '/' hc).2.1

/-- Witness for `c10_amended` at the entry `example.com`. -/
theorem c10_witness :
    parseUrl "example.com".toList = .ok ⟨[], []⟩ ∧
    processEntry "example.com".toList = ["://".toList] ∧
    "example.com".toList ∉ allOrigins "example.com".toList := by
  have h := c10_amended "example.com".toList (by decide) (by decide)
  exact ⟨h.1, h.2.1, h.2.2 _⟩

/-! ### Concrete evaluation facts documenting the embedding -/

theorem splitComma_eval : splitComma "a,b".toList = [['a'], ['b']] := by decide

theorem parseUrl_eval_https :
    parseUrl "https://a.com/path".toList = .ok ⟨"https".toList, "a.com".toList⟩ := by
  decide

theorem parseUrl_eval_bare : parseUrl "example.com".toList = .ok ⟨[], []⟩ := by decide

theorem parseUrl_eval_relative :
    parseUrl "//a.com".toList = .ok ⟨[], "a.com".toList⟩ := by decide

theorem parseUrl_eval_bracket :
    parseUrl "https://hamza123545.github.io[".toList = .error "Invalid IPv6 URL" := by
  decide

theorem allOrigins_eval :
    allOrigins "https://a.com/path/,https://b.com".toList =
      ["https://a.com".toList, "https://b.com".toList,
       "https://hamza123545.github.io".toList, "http://localhost:3000".toList,
       "http://localhost:3001".toList] := by decide

theorem normalize_eval_relative : normalize "//a".toList = "://a".toList := by decide

theorem normalize_eval_colon : normalize "://a".toList = "://".toList := by decide

end CorsSpec
